import Mathlib

/-
  Verification development for the DemARK consumption-saving notebooks.

  The notebooks call into an external structural-modeling library for
  solving and simulating buffer-stock consumption models, and contain
  glue code of their own: the MPC annualization formula, the makeTBSplot
  plotting routine with its try/except around solve(), and the deep-copy
  based very-impatient-households experiment.  Code that lives only in
  the external library (solver loop, simulator, Lorenz-share aggregator,
  reference-data loading) is modelled from the specification, with each
  such definition marked `Modelled from the spec:` in its doc comment.

  All arithmetic is carried out over the rationals.
-/

namespace DemARK

/-! ### MPC annualization

From the notebook code
`MPCpercentiles_annual = 1.0 - (1.0 - MPCpercentiles_quarterly)**4`:
the per-period MPC is converted to an annual MPC by compounding the
unconsumed fraction over the periods of a year. -/

def annualize (mpc_period : ℚ) (periods_per_year : ℕ) : ℚ :=
  1 - (1 - mpc_period) ^ periods_per_year

/-! ### C1 -/

/-- C1: for every period-frequency MPC in [0,1] the annualized MPC at
four periods per year equals 1 - (1 - mpc)^4, and in particular
`annualize 0 4 = 0`, `annualize 1 4 = 1`, `annualize (1/2) 4 = 0.9375`. -/
theorem annualize_mpc_conversion (m : ℚ) (h0 : 0 ≤ m) (h1 : m ≤ 1) :
    annualize m 4 = 1 - (1 - m) ^ 4 ∧
    annualize 0 4 = 0 ∧
    annualize 1 4 = 1 ∧
    annualize (1 / 2) 4 = 9375 / 10000 := by
  refine ⟨rfl, ?_, ?_, ?_⟩ <;> norm_num [annualize]

theorem annualize_mpc_conversion_witness :
    annualize (1 / 2) 4 = 9375 / 10000 :=
  (annualize_mpc_conversion (1 / 2) (by norm_num) (by norm_num)).2.2.2

/-! ### Spec-modelled policy function

The spec's Solver contract: backward induction from a terminal
consume-all period, artificial borrowing constraint enforced by
clipping, log-utility branch for CRRA = 1.  The one-step backward
induction from consume-all under log utility with human wealth `h`
(discounted future labor income) gives unconstrained consumption
`(m + h) / (1 + beta)`; the zero borrowing constraint caps consumption
at current market resources `m`. -/

/-- Modelled from the spec: the PolicyFunction produced by the external
solver is not in this repository; this is one backward-induction step
from the consume-all terminal policy under the CRRA = 1 (log utility)
branch with a zero artificial borrowing constraint. -/
def cFuncTwoPeriod (beta h m : ℚ) : ℚ :=
  min m ((m + h) / (1 + beta))

/-! ### C4 -/

/-- C4: with discount factor beta > 0 and nonnegative human wealth, the
policy function's consumption never exceeds the market resources
available at or above the zero borrowing-constraint boundary, is
monotone nondecreasing in market resources, and equals 0 at m = 0. -/
theorem cFunc_bounded_monotone (beta h m m' : ℚ)
    (hbeta : 0 < beta) (hh : 0 ≤ h) (hm : 0 ≤ m) (hmm : m ≤ m') :
    cFuncTwoPeriod beta h m ≤ m ∧
    cFuncTwoPeriod beta h m ≤ cFuncTwoPeriod beta h m' ∧
    cFuncTwoPeriod beta h 0 = 0 := by
  have hden : (0 : ℚ) < 1 + beta := by linarith
  refine ⟨min_le_left _ _, ?_, ?_⟩
  · exact min_le_min hmm ((div_le_div_right hden).mpr (by linarith))
  · simp only [cFuncTwoPeriod, zero_add]
    exact min_eq_left (div_nonneg hh (le_of_lt hden))

theorem cFunc_bounded_monotone_witness :
    cFuncTwoPeriod (9 / 10) 2 1 ≤ 1 ∧
    cFuncTwoPeriod (9 / 10) 2 1 ≤ cFuncTwoPeriod (9 / 10) 2 3 ∧
    cFuncTwoPeriod (9 / 10) 2 0 = 0 :=
  cFunc_bounded_monotone (9 / 10) 2 1 3 (by norm_num) (by norm_num)
    (by norm_num) (by norm_num)

/-! ### Spec-modelled solver with impatience-condition advisories

The notebook output records messages such as "The given type violates
the absolute impatience condition with the supplied parameter values;
the AIF is 1.00032" while the solve loop continues and every type is
solved and simulated.  The checking code itself lives in the external
library, so it is modelled from the spec here. -/

structure ParameterSet where
  CRRA : ℚ
  DiscFac : ℚ
  Rfree : ℚ
  PermGroFac : ℚ
deriving Repr, DecidableEq

/-- Modelled from the spec: the absolute impatience factor
(Rfree * DiscFac)^(1/CRRA) at the notebook calibration CRRA = 1. -/
def AIF (p : ParameterSet) : ℚ := p.Rfree * p.DiscFac

/-- Modelled from the spec: the growth impatience factor, the absolute
impatience factor divided by the permanent income growth factor. -/
def GIF (p : ParameterSet) : ℚ := p.Rfree * p.DiscFac / p.PermGroFac

structure SolveResult where
  advisories : List String
  policy : ℚ → ℚ

/-- Modelled from the spec: growth-impatience and absolute-impatience
conditions are checked, not enforced; a violation adds an advisory
message for the caller. -/
def checkConditions (p : ParameterSet) : List String :=
  (if 1 ≤ AIF p then
    ["The given type violates the absolute impatience condition"]
  else []) ++
  (if 1 ≤ GIF p then
    ["The given type violates the growth impatience condition"]
  else [])

/-- Modelled from the spec: the external solve() is not in this
repository; this model reports condition violations as advisories and
produces the policy function unconditionally. -/
def solve (p : ParameterSet) : SolveResult :=
  { advisories := checkConditions p
    policy := fun m => cFuncTwoPeriod p.DiscFac (p.PermGroFac / p.Rfree) m }

/-! ### C2 -/

/-- C2: for every ParameterSet violating the growth-impatience or the
absolute-impatience condition, solve() still produces the policy
function (identical to the one produced for any parameter set), and the
violation is reported as a non-fatal advisory in the result. -/
theorem solve_violation_nonfatal (p : ParameterSet)
    (h : 1 ≤ AIF p ∨ 1 ≤ GIF p) :
    (solve p).policy =
      (fun m => cFuncTwoPeriod p.DiscFac (p.PermGroFac / p.Rfree) m) ∧
    (solve p).advisories ≠ [] := by
  refine ⟨rfl, ?_⟩
  simp only [solve, checkConditions]
  rcases h with h | h
  · simp [h]
  · rcases le_or_lt 1 (AIF p) with h' | h' <;> simp [h, h']

theorem solve_violation_nonfatal_witness :
    (solve ⟨1, 99 / 100, 102 / 100, 1⟩).policy =
      (fun m => cFuncTwoPeriod (99 / 100) (1 / (102 / 100)) m) ∧
    (solve ⟨1, 99 / 100, 102 / 100, 1⟩).advisories ≠ [] :=
  solve_violation_nonfatal ⟨1, 99 / 100, 102 / 100, 1⟩
    (Or.inl (by norm_num [AIF]))

/-! ### The Tractable Buffer Stock quick demo: makeTBSplot

From `src/notebooks/TractableBufferStockQuickDemo.ipynb`: makeTBSplot
assigns the slider values onto the agent's parameter attributes, calls
solve() inside a try/except that only prints a message on failure, and
then builds the plot from `MyTBStype.solution[0]` and the target
attributes, which a failed solve leaves at their previous values. -/

/-- The attributes on the agent that are (re)computed by a successful
solve(): the employed and retired consumption functions, the
compensated growth factor, and the target market resources and
consumption. -/
structure TBSSolution where
  cFunc : ℚ → ℚ
  cFunc_U : ℚ → ℚ
  PermGroFacCmp : ℚ
  mTarg : ℚ
  cTarg : ℚ

structure TBSAgent where
  DiscFac : ℚ
  CRRA : ℚ
  Rfree : ℚ
  PermGroFac : ℚ
  UnempPrb : ℚ
  solution : TBSSolution

/-- The data drawn by makeTBSplot: the plotted employed consumption
values (with the `c[m==0.] = 0.` clip), the retired consumption values,
the sustainable-consumption line endpoints, and the target annotation. -/
structure TBSPlot where
  cEmployed : ℚ → ℚ
  cRetired : ℚ → ℚ
  mSSLine : ℚ → ℚ
  targPoint : ℚ × ℚ

def setTBSParams (a : TBSAgent) (DiscFac CRRA PermGroFac UnempPrb : ℚ) :
    TBSAgent :=
  { a with DiscFac := DiscFac, CRRA := CRRA, PermGroFac := PermGroFac,
           UnempPrb := UnempPrb }

/-- The makeTBSplot control flow: assign parameters, attempt solve()
(the external solver is abstracted as a function returning none when it
raises), swallow any failure after printing a message, and build the
plot from whatever solution the agent currently holds. -/
def makeTBSplot (solver : TBSAgent → Option TBSSolution) (a : TBSAgent)
    (DiscFac CRRA PermGroFac UnempPrb : ℚ) : TBSAgent × TBSPlot :=
  let a1 := setTBSParams a DiscFac CRRA PermGroFac UnempPrb
  let a2 := match solver a1 with
            | some sol => { a1 with solution := sol }
            | none => a1
  (a2,
   { cEmployed := fun m => if m = 0 then 0 else a2.solution.cFunc m
     cRetired := fun m => a2.solution.cFunc_U m
     mSSLine := fun m =>
       a2.solution.PermGroFacCmp / a2.Rfree +
         m * (1 - a2.solution.PermGroFacCmp / a2.Rfree)
     targPoint := (a2.solution.mTarg, a2.solution.cTarg) })

/-! ### C9 -/

/-- C9: when solve() fails on the newly assigned parameters, makeTBSplot
swallows the failure and proceeds: the returned agent carries the new
parameter values but the solution of the last successful solve, and the
plotted consumption function, retired consumption function,
sustainable-consumption line and target annotation are all computed
from that stale solution. -/
theorem makeTBSplot_stale_on_failure
    (solver : TBSAgent → Option TBSSolution) (a : TBSAgent)
    (DiscFac CRRA PermGroFac UnempPrb : ℚ)
    (hfail : solver (setTBSParams a DiscFac CRRA PermGroFac UnempPrb) = none) :
    (makeTBSplot solver a DiscFac CRRA PermGroFac UnempPrb).1 =
      setTBSParams a DiscFac CRRA PermGroFac UnempPrb ∧
    (makeTBSplot solver a DiscFac CRRA PermGroFac UnempPrb).1.solution =
      a.solution ∧
    (makeTBSplot solver a DiscFac CRRA PermGroFac UnempPrb).2.cEmployed =
      (fun m => if m = 0 then 0 else a.solution.cFunc m) ∧
    (makeTBSplot solver a DiscFac CRRA PermGroFac UnempPrb).2.cRetired =
      (fun m => a.solution.cFunc_U m) ∧
    (makeTBSplot solver a DiscFac CRRA PermGroFac UnempPrb).2.targPoint =
      (a.solution.mTarg, a.solution.cTarg) := by
  simp only [setTBSParams] at hfail
  simp [makeTBSplot, setTBSParams, hfail]

def tbsDemoSolution : TBSSolution :=
  { cFunc := fun m => m / 2, cFunc_U := fun m => m / 3,
    PermGroFacCmp := 1, mTarg := 4, cTarg := 2 }

def tbsDemoAgent : TBSAgent :=
  { DiscFac := 975 / 1000, CRRA := 5 / 2, Rfree := 101 / 100,
    PermGroFac := 10025 / 10000, UnempPrb := 625 / 100000,
    solution := tbsDemoSolution }

theorem makeTBSplot_stale_on_failure_witness :
    (makeTBSplot (fun _ => none) tbsDemoAgent (8 / 10) (5 / 2) 1 (1 / 100)).1 =
      setTBSParams tbsDemoAgent (8 / 10) (5 / 2) 1 (1 / 100) ∧
    (makeTBSplot (fun _ => none) tbsDemoAgent
        (8 / 10) (5 / 2) 1 (1 / 100)).1.solution = tbsDemoAgent.solution ∧
    (makeTBSplot (fun _ => none) tbsDemoAgent
        (8 / 10) (5 / 2) 1 (1 / 100)).2.cEmployed =
      (fun m => if m = 0 then 0 else tbsDemoAgent.solution.cFunc m) ∧
    (makeTBSplot (fun _ => none) tbsDemoAgent
        (8 / 10) (5 / 2) 1 (1 / 100)).2.cRetired =
      (fun m => tbsDemoAgent.solution.cFunc_U m) ∧
    (makeTBSplot (fun _ => none) tbsDemoAgent
        (8 / 10) (5 / 2) 1 (1 / 100)).2.targPoint =
      (tbsDemoAgent.solution.mTarg, tbsDemoAgent.solution.cTarg) :=
  makeTBSplot_stale_on_failure (fun _ => none) tbsDemoAgent
    (8 / 10) (5 / 2) 1 (1 / 100) rfl

/-! ### Spec-modelled infinite-horizon fixed-point iteration

The calibrated parameter dictionary sets `cycles = 0` (infinite
horizon); the spec describes the stationary solve as iterating the
one-period backward step until the sup-norm difference falls below a
tolerance, or stopping at a maximum iteration count with a
distinguished non-convergence failure. -/

inductive SolveFailure
  | nonConvergence
deriving Repr, DecidableEq

/-- Sup-norm distance between two policy functions represented by their
values on a common grid. -/
def supDist (a b : List ℚ) : ℚ :=
  (List.zipWith (fun x y => |x - y|) a b).foldr max 0

/-- Modelled from the spec: the external infinite-horizon solver loop is
not in this repository; this model iterates the one-period backward
step until the sup-norm difference drops below the tolerance, and
returns the distinguished non-convergence failure when the remaining
iteration budget is exhausted. -/
def solveInfiniteAux (step : List ℚ → List ℚ) (tol : ℚ) :
    ℕ → List ℚ → Except SolveFailure (List ℚ)
  | 0, _ => .error .nonConvergence
  | n + 1, pol =>
      let pol' := step pol
      if supDist pol pol' < tol then .ok pol'
      else solveInfiniteAux step tol n pol'

/-- Modelled from the spec: the stationary solve with an iteration cap. -/
def solveInfinite (step : List ℚ → List ℚ) (tol : ℚ) (maxIter : ℕ)
    (pol0 : List ℚ) : Except SolveFailure (List ℚ) :=
  solveInfiniteAux step tol maxIter pol0

/-! ### C8 -/

/-- C8: the infinite-horizon fixed-point iteration always terminates
(solveInfinite is a total function, its recursion bounded by the
iteration cap) and its outcome is either a policy that converged below
the tolerance, or the distinguished non-convergence failure; there is no
third outcome, so a partially converged policy is never returned
unflagged. -/
theorem solveInfinite_terminates_or_flags (step : List ℚ → List ℚ)
    (tol : ℚ) (maxIter : ℕ) (pol0 : List ℚ) :
    (∃ p p', solveInfinite step tol maxIter pol0 = .ok p' ∧
      p' = step p ∧ supDist p p' < tol) ∨
    solveInfinite step tol maxIter pol0 = .error .nonConvergence := by
  induction maxIter generalizing pol0 with
  | zero => exact Or.inr rfl
  | succ n ih =>
      show (∃ p p', solveInfiniteAux step tol (n + 1) pol0 = .ok p' ∧
          p' = step p ∧ supDist p p' < tol) ∨
        solveInfiniteAux step tol (n + 1) pol0 = .error .nonConvergence
      rcases lt_or_le (supDist pol0 (step pol0)) tol with hconv | hdiv
      · exact Or.inl ⟨pol0, step pol0, by simp [solveInfiniteAux, hconv],
          rfl, hconv⟩
      · have hstep : solveInfiniteAux step tol (n + 1) pol0 =
            solveInfiniteAux step tol n (step pol0) := by
          simp [solveInfiniteAux, not_lt.mpr hdiv]
        rw [hstep]
        exact ih (step pol0)

/-! ### Spec-modelled external reference data loading

The notebook's recorded output shows that importing the empirical
comparison data raised `FileNotFoundError` when the underlying data
file was absent; the loading code lives in the external library and is
modelled from the spec. -/

inductive DataFailure
  | dataUnavailable : String → DataFailure
deriving Repr, DecidableEq

/-- Modelled from the spec: loading an expected external reference
dataset (the raw input is none when the file is absent, and some of the
parsed rows otherwise); a missing or empty/invalid dataset fails fast
with the distinguishable data-unavailable failure and is never passed
through as an empty dataset. -/
def loadReferenceData (raw : Option (List ℚ)) :
    Except DataFailure (List ℚ) :=
  match raw with
  | none => .error (.dataUnavailable "USactuarial.txt")
  | some [] => .error (.dataUnavailable "USactuarial.txt")
  | some d => .ok d

/-! ### C6 -/

/-- C6: when the expected reference dataset is absent the load fails
fast with the distinguishable data-unavailable failure, and for no
input whatsoever does the load succeed with an empty dataset. -/
theorem loadReferenceData_fails_fast :
    loadReferenceData none =
      .error (.dataUnavailable "USactuarial.txt") ∧
    ∀ raw : Option (List ℚ), loadReferenceData raw ≠ .ok [] := by
  refine ⟨rfl, ?_⟩
  intro raw
  match raw with
  | none => simp [loadReferenceData]
  | some [] => simp [loadReferenceData]
  | some (x :: xs) => simp [loadReferenceData]

/-! ### Spec-modelled Monte Carlo simulator

The notebook assigns each consumer type its own RNG seed
(`NewType.seed = nn`) and then calls initializeSim() and simulate();
the simulator itself lives in the external library.  The model below
threads an explicit linear-congruential stream initialized from the
seed: every shock draw (permanent, transitory, survival) comes from
that stream and nothing else, matching the spec's per-agent-type seeded
stream for reproducibility. -/

/-- One step of a 32-bit linear congruential generator. -/
def lcg (s : ℕ) : ℕ := (1664525 * s + 1013904223) % 4294967296

structure SimParams where
  AgentCount : ℕ
  DiscFac : ℚ
  Rfree : ℚ
  PermGroFac : ℚ
  aNrmInit : ℚ
  pLvlInit : ℚ
  PermShkVals : List ℚ
  UnempPrbPct : ℕ
  IncUnemp : ℚ
  LivDenom : ℕ

structure AgentState where
  aNrm : ℚ
  pLvl : ℚ
deriving Repr, DecidableEq

/-- Modelled from the spec: initial agent state drawn from the
configured (degenerate, std = 0) initial distributions. -/
def initAgent (p : SimParams) : AgentState :=
  ⟨p.aNrmInit, p.pLvlInit⟩

/-- Modelled from the spec: initializeSim creates the panel of
AgentCount identical initial agents and seeds the random stream. -/
def initSimPanel (p : SimParams) (seed : ℕ) : List AgentState × ℕ :=
  (List.replicate p.AgentCount (initAgent p), lcg seed)

/-- Modelled from the spec: one simulated period for one agent — draw
the permanent and transitory income shocks and the survival outcome
from the stream, evaluate consumption through the policy function,
update assets and permanent income, and replace the agent by a fresh
initial state on death (perpetual-youth replacement). -/
def stepAgent (p : SimParams) (policy : ℚ → ℚ) (st : AgentState)
    (rng : ℕ) : AgentState × ℕ :=
  let r1 := lcg rng
  let permShk := p.PermShkVals.getD (r1 % p.PermShkVals.length) 1
  let r2 := lcg r1
  let tranShk := if r2 % 100 < p.UnempPrbPct then p.IncUnemp else 1
  let r3 := lcg r2
  let m := st.aNrm * p.Rfree / (p.PermGroFac * permShk) + tranShk
  let c := policy m
  if r3 % p.LivDenom = 0 then (initAgent p, r3)
  else (⟨m - c, st.pLvl * p.PermGroFac * permShk⟩, r3)

/-- Modelled from the spec: advance every agent of the panel through
one period, threading the random stream in agent order. -/
def stepPanel (p : SimParams) (policy : ℚ → ℚ) :
    List AgentState → ℕ → List AgentState × ℕ
  | [], rng => ([], rng)
  | st :: rest, rng =>
      let a := stepAgent p policy st rng
      let b := stepPanel p policy rest a.2
      (a.1 :: b.1, b.2)

def simulateAux (p : SimParams) (policy : ℚ → ℚ) :
    ℕ → List AgentState × ℕ → List AgentState × ℕ
  | 0, s => s
  | n + 1, s => simulateAux p policy n (stepPanel p policy s.1 s.2)

/-- Modelled from the spec: the full simulation run — derive the policy
from the parameter set, initialize the panel from the seed, and advance
it the requested number of periods.  All randomness is drawn from the
explicit stream initialized by the seed. -/
def simulate (p : SimParams) (seed : ℕ) (periods : ℕ) : List AgentState :=
  (simulateAux p (fun m => cFuncTwoPeriod p.DiscFac (p.PermGroFac / p.Rfree) m)
    periods (initSimPanel p seed)).1

/-! ### C3 -/

/-- C3: two Simulator runs with identical (ParameterSet, seed, period
count) inputs produce identical Panel trajectories: the simulation is a
deterministic function of those three inputs, since every shock draw
comes from the explicit stream initialized by the seed. -/
theorem simulate_deterministic (p1 p2 : SimParams) (s1 s2 n1 n2 : ℕ)
    (hp : p1 = p2) (hs : s1 = s2) (hn : n1 = n2) :
    simulate p1 s1 n1 = simulate p2 s2 n2 := by
  subst hp; subst hs; subst hn; rfl

def simDemoParams : SimParams :=
  { AgentCount := 3, DiscFac := 97 / 100, Rfree := 101 / 100,
    PermGroFac := 1, aNrmInit := 1 / 100000, pLvlInit := 1,
    PermShkVals := [9 / 10, 1, 11 / 10], UnempPrbPct := 7,
    IncUnemp := 15 / 100, LivDenom := 160 }

theorem simulate_deterministic_witness :
    simulate simDemoParams 1 2 = simulate simDemoParams 1 2 :=
  simulate_deterministic simDemoParams simDemoParams 1 1 2 2 rfl rfl rfl

/-! ### Spec-modelled Lorenz shares

The notebook calls `getLorenzShares(SCF_wealth, weights=SCF_weights,
percentiles=pctiles)` from the external utilities module; the function
itself is not in this repository.  Modelled from the spec: the
cumulative share of total value held by the population below each
weighted percentile, computed on the data ordered by value.  An
observation is included while its weight still fits in the remaining
weight budget `p * totalWeight`; negative values contribute negatively
and are never clipped. -/

def insertPair (x : ℚ × ℚ) : List (ℚ × ℚ) → List (ℚ × ℚ)
  | [] => [x]
  | y :: rest => if x.1 ≤ y.1 then x :: y :: rest else y :: insertPair x rest

def sortByValue : List (ℚ × ℚ) → List (ℚ × ℚ)
  | [] => []
  | x :: rest => insertPair x (sortByValue rest)

def totalWeight (l : List (ℚ × ℚ)) : ℚ := (l.map Prod.snd).sum

def totalWV (l : List (ℚ × ℚ)) : ℚ := (l.map fun x => x.1 * x.2).sum

/-- Modelled from the spec: weighted value accumulated from the sorted
data while the weight budget lasts. -/
def lorenzNum : List (ℚ × ℚ) → ℚ → ℚ
  | [], _ => 0
  | x :: rest, budget =>
      if x.2 ≤ budget then x.1 * x.2 + lorenzNum rest (budget - x.2) else 0

/-- Modelled from the spec: getLorenzShares — the cumulative share of
total value held below the requested fraction of the population,
ordered by value. -/
def getLorenzShares (data : List (ℚ × ℚ)) (p : ℚ) : ℚ :=
  lorenzNum (sortByValue data) (p * totalWeight data) / totalWV data

theorem mem_insertPair {x y : ℚ × ℚ} :
    ∀ {l : List (ℚ × ℚ)}, y ∈ insertPair x l → y = x ∨ y ∈ l := by
  intro l
  induction l with
  | nil => intro h; simp [insertPair] at h; exact Or.inl h
  | cons z rest ih =>
      intro h
      simp only [insertPair] at h
      by_cases hc : x.1 ≤ z.1
      · rw [if_pos hc] at h
        rcases List.mem_cons.mp h with h' | h'
        · exact Or.inl h'
        · exact Or.inr h'
      · rw [if_neg hc] at h
        rcases List.mem_cons.mp h with h' | h'
        · exact Or.inr (List.mem_cons.mpr (Or.inl h'))
        · rcases ih h' with h'' | h''
          · exact Or.inl h''
          · exact Or.inr (List.mem_cons.mpr (Or.inr h''))

theorem mem_sortByValue {y : ℚ × ℚ} :
    ∀ {l : List (ℚ × ℚ)}, y ∈ sortByValue l → y ∈ l := by
  intro l
  induction l with
  | nil => intro h; simp [sortByValue] at h
  | cons x rest ih =>
      intro h
      rcases mem_insertPair h with h' | h'
      · exact h' ▸ List.mem_cons_self x rest
      · exact List.mem_cons.mpr (Or.inr (ih h'))

theorem totalWeight_insertPair (x : ℚ × ℚ) (l : List (ℚ × ℚ)) :
    totalWeight (insertPair x l) = x.2 + totalWeight l := by
  induction l with
  | nil => simp [insertPair, totalWeight]
  | cons z rest ih =>
      by_cases hc : x.1 ≤ z.1
      · simp [insertPair, hc, totalWeight]
      · simp only [insertPair, if_neg hc, totalWeight, List.map_cons,
          List.sum_cons]
        simp only [totalWeight] at ih
        rw [ih]; ring

theorem totalWV_insertPair (x : ℚ × ℚ) (l : List (ℚ × ℚ)) :
    totalWV (insertPair x l) = x.1 * x.2 + totalWV l := by
  induction l with
  | nil => simp [insertPair, totalWV]
  | cons z rest ih =>
      by_cases hc : x.1 ≤ z.1
      · simp [insertPair, hc, totalWV]
      · simp only [insertPair, if_neg hc, totalWV, List.map_cons,
          List.sum_cons]
        simp only [totalWV] at ih
        rw [ih]; ring

theorem totalWeight_sortByValue (l : List (ℚ × ℚ)) :
    totalWeight (sortByValue l) = totalWeight l := by
  induction l with
  | nil => rfl
  | cons x rest ih =>
      simp only [sortByValue, totalWeight_insertPair]
      simp [totalWeight, ih]
      simp only [totalWeight] at ih
      rw [ih]

theorem totalWV_sortByValue (l : List (ℚ × ℚ)) :
    totalWV (sortByValue l) = totalWV l := by
  induction l with
  | nil => rfl
  | cons x rest ih =>
      simp only [sortByValue, totalWV_insertPair]
      simp only [totalWV, List.map_cons, List.sum_cons]
      simp only [totalWV] at ih
      rw [ih]

theorem totalWeight_nonneg (l : List (ℚ × ℚ))
    (h : ∀ x ∈ l, 0 ≤ x.2) : 0 ≤ totalWeight l := by
  apply List.sum_nonneg
  intro a ha
  rcases List.mem_map.mp ha with ⟨x, hx, rfl⟩
  exact h x hx

theorem totalWV_nonneg (l : List (ℚ × ℚ))
    (h : ∀ x ∈ l, 0 ≤ x.1 ∧ 0 ≤ x.2) : 0 ≤ totalWV l := by
  apply List.sum_nonneg
  intro a ha
  rcases List.mem_map.mp ha with ⟨x, hx, rfl⟩
  exact mul_nonneg (h x hx).1 (h x hx).2

theorem lorenzNum_nonneg (l : List (ℚ × ℚ)) (b : ℚ)
    (h : ∀ x ∈ l, 0 ≤ x.1 ∧ 0 ≤ x.2) : 0 ≤ lorenzNum l b := by
  induction l generalizing b with
  | nil => exact le_refl 0
  | cons x rest ih =>
      simp only [lorenzNum]
      split
      · exact add_nonneg
          (mul_nonneg (h x (List.mem_cons_self x rest)).1
            (h x (List.mem_cons_self x rest)).2)
          (ih (b - x.2) fun y hy => h y (List.mem_cons.mpr (Or.inr hy)))
      · exact le_refl 0

theorem lorenzNum_mono (l : List (ℚ × ℚ)) (b1 b2 : ℚ)
    (h : ∀ x ∈ l, 0 ≤ x.1 ∧ 0 ≤ x.2) (hb : b1 ≤ b2) :
    lorenzNum l b1 ≤ lorenzNum l b2 := by
  induction l generalizing b1 b2 with
  | nil => exact le_refl 0
  | cons x rest ih =>
      by_cases h1 : x.2 ≤ b1
      · have h2 : x.2 ≤ b2 := le_trans h1 hb
        simp only [lorenzNum, if_pos h1, if_pos h2]
        exact add_le_add_left
          (ih (b1 - x.2) (b2 - x.2)
            (fun y hy => h y (List.mem_cons.mpr (Or.inr hy)))
            (by linarith)) _
      · simp only [lorenzNum, if_neg h1]
        exact lorenzNum_nonneg _ _ h

theorem lorenzNum_le_totalWV (l : List (ℚ × ℚ)) (b : ℚ)
    (h : ∀ x ∈ l, 0 ≤ x.1 ∧ 0 ≤ x.2) : lorenzNum l b ≤ totalWV l := by
  induction l generalizing b with
  | nil => exact le_refl 0
  | cons x rest ih =>
      have hrest : ∀ y ∈ rest, 0 ≤ y.1 ∧ 0 ≤ y.2 :=
        fun y hy => h y (List.mem_cons.mpr (Or.inr hy))
      simp only [lorenzNum]
      split
      · have := ih (b - x.2) hrest
        simp only [totalWV, List.map_cons, List.sum_cons]
        simp only [totalWV] at this
        linarith
      · exact totalWV_nonneg _ h

theorem lorenzNum_full (l : List (ℚ × ℚ)) (b : ℚ)
    (h : ∀ x ∈ l, 0 ≤ x.2) (hb : totalWeight l ≤ b) :
    lorenzNum l b = totalWV l := by
  induction l generalizing b with
  | nil => rfl
  | cons x rest ih =>
      have hrest : ∀ y ∈ rest, 0 ≤ y.2 :=
        fun y hy => h y (List.mem_cons.mpr (Or.inr hy))
      have hwrest : 0 ≤ totalWeight rest := totalWeight_nonneg rest hrest
      have hsum : totalWeight (x :: rest) = x.2 + totalWeight rest := by
        simp [totalWeight]
      have hx : x.2 ≤ b := by rw [hsum] at hb; linarith
      simp only [lorenzNum, if_pos hx]
      rw [ih (b - x.2) hrest (by rw [hsum] at hb; linarith)]
      simp [totalWV]

theorem lorenzNum_budget_zero (l : List (ℚ × ℚ))
    (h : ∀ x ∈ l, 0 < x.2) : lorenzNum l 0 = 0 := by
  cases l with
  | nil => rfl
  | cons x rest =>
      have : ¬ x.2 ≤ 0 := not_le.mpr (h x (List.mem_cons_self x rest))
      simp [lorenzNum, this]

/-! ### C5 -/

/-- C5 counterexample: with values including negative net worth (kept
unclipped, as the claim requires) and positive weights, getLorenzShares
is not monotone nondecreasing in the fraction: at the concrete data
[(-1, 1), (2, 1)] the share at fraction 0 is 0 while the share at
fraction 1/2 is -1. -/
theorem getLorenzShares_neg_not_monotone :
    ¬ (getLorenzShares [((-1 : ℚ), 1), (2, 1)] 0 ≤
        getLorenzShares [((-1 : ℚ), 1), (2, 1)] (1 / 2)) := by
  norm_num [getLorenzShares, sortByValue, insertPair, lorenzNum,
    totalWeight, totalWV]

/-- C5 (amended): for data with nonnegative values and positive
weights whose total weighted value is positive, getLorenzShares is
monotone nondecreasing in the fraction, bounded in [0, 1], and equals 0
at fraction 0 and exactly 1 at fraction 1; negative values, when
present, are preserved unclipped and may break monotonicity and the
lower bound. -/
theorem getLorenzShares_monotone_bounded (data : List (ℚ × ℚ)) (p q : ℚ)
    (hd : ∀ x ∈ data, 0 ≤ x.1 ∧ 0 < x.2) (htot : 0 < totalWV data)
    (hp : 0 ≤ p) (hpq : p ≤ q) :
    getLorenzShares data p ≤ getLorenzShares data q ∧
    0 ≤ getLorenzShares data p ∧
    getLorenzShares data q ≤ 1 ∧
    getLorenzShares data 0 = 0 ∧
    getLorenzShares data 1 = 1 := by
  have hsd : ∀ x ∈ sortByValue data, 0 ≤ x.1 ∧ 0 < x.2 :=
    fun x hx => hd x (mem_sortByValue hx)
  have hsd' : ∀ x ∈ sortByValue data, 0 ≤ x.1 ∧ 0 ≤ x.2 :=
    fun x hx => ⟨(hsd x hx).1, le_of_lt (hsd x hx).2⟩
  have hW : 0 ≤ totalWeight data :=
    totalWeight_nonneg data fun x hx => le_of_lt (hd x hx).2
  have hbud : p * totalWeight data ≤ q * totalWeight data :=
    mul_le_mul_of_nonneg_right hpq hW
  refine ⟨?_, ?_, ?_, ?_, ?_⟩
  · rw [getLorenzShares, getLorenzShares]
    exact (div_le_div_right htot).mpr (lorenzNum_mono _ _ _ hsd' hbud)
  · rw [getLorenzShares]
    exact div_nonneg (lorenzNum_nonneg _ _ hsd') (le_of_lt htot)
  · rw [getLorenzShares, div_le_one htot]
    calc lorenzNum (sortByValue data) (q * totalWeight data)
        ≤ totalWV (sortByValue data) := lorenzNum_le_totalWV _ _ hsd'
      _ = totalWV data := totalWV_sortByValue data
  · rw [getLorenzShares, zero_mul,
      lorenzNum_budget_zero _ fun x hx => (hsd x hx).2, zero_div]
  · rw [getLorenzShares, one_mul]
    rw [lorenzNum_full _ _ (fun x hx => (hsd' x hx).2)
      (by rw [totalWeight_sortByValue])]
    rw [totalWV_sortByValue]
    exact div_self (ne_of_gt htot)

theorem getLorenzShares_monotone_bounded_witness :
    getLorenzShares [((1 : ℚ), 1), (3, 1)] (1 / 2) ≤
      getLorenzShares [((1 : ℚ), 1), (3, 1)] 1 ∧
    0 ≤ getLorenzShares [((1 : ℚ), 1), (3, 1)] (1 / 2) ∧
    getLorenzShares [((1 : ℚ), 1), (3, 1)] 1 ≤ 1 ∧
    getLorenzShares [((1 : ℚ), 1), (3, 1)] 0 = 0 ∧
    getLorenzShares [((1 : ℚ), 1), (3, 1)] 1 = 1 :=
  getLorenzShares_monotone_bounded [((1 : ℚ), 1), (3, 1)] (1 / 2) 1
    (by norm_num) (by norm_num [totalWV]) (by norm_num) (by norm_num)

/-! ### The very-impatient-households experiment (deep copy)

From the notebook code:
`NewTypes = deepcopy(MyTypes); NewTypes[0].DiscFac = 0.8;`
`NewTypes[0].solve(); NewTypes[0].initializeSim(); NewTypes[0].simulate()`.
Python objects live on a heap and lists hold references; deepcopy
allocates fresh objects.  The heap is modelled as a list of agent
records addressed by index, a consumer-type list as a list of indices,
deepcopy as allocation of copied records at fresh indices, and the
attribute mutation and the solve/initializeSim/simulate calls as
in-place updates of the record at one reference. -/

structure AgentRecord where
  DiscFac : ℚ
  solvedPolicy : Option (List ℚ)
  aLvlNow : List ℚ
  MPCnow : List ℚ
deriving Repr, DecidableEq, Inhabited

def heapGet (h : List AgentRecord) (r : ℕ) : AgentRecord :=
  h.getD r default

/-- In-place mutation of the record behind one reference, covering both
attribute assignment and the state written by solve(), initializeSim()
and simulate(). -/
def updateRef (h : List AgentRecord) (r : ℕ)
    (f : AgentRecord → AgentRecord) : List AgentRecord :=
  h.set r (f (heapGet h r))

/-- `deepcopy(MyTypes)`: allocate a fresh copy of each referenced
record at the end of the heap and return the fresh references. -/
def deepcopyRefs (h : List AgentRecord) (refs : List ℕ) :
    List AgentRecord × List ℕ :=
  (h ++ refs.map (heapGet h), List.range' h.length refs.length)

/-- The experiment: deep-copy the type list, set DiscFac of the first
copied type to 0.8, then run solve, initializeSim and simulate on it
(each an arbitrary update of that record).  Returns the final heap and
the fresh references. -/
def veryImpatientExperiment (h : List AgentRecord) (refs : List ℕ)
    (solveFn initFn simFn : AgentRecord → AgentRecord) :
    List AgentRecord × List ℕ :=
  let hc := deepcopyRefs h refs
  let r0 := hc.2.getD 0 0
  let h2 := updateRef hc.1 r0 fun a => { a with DiscFac := 8 / 10 }
  let h3 := updateRef h2 r0 solveFn
  let h4 := updateRef h3 r0 initFn
  let h5 := updateRef h4 r0 simFn
  (h5, hc.2)

theorem getD_set_ne {α : Type} (l : List α) (i j : ℕ) (a d : α)
    (hij : i ≠ j) : (l.set i a).getD j d = l.getD j d := by
  induction l generalizing i j with
  | nil => rfl
  | cons x xs ih =>
      cases i with
      | zero =>
          cases j with
          | zero => exact absurd rfl hij
          | succ j' => rfl
      | succ i' =>
          cases j with
          | zero => rfl
          | succ j' =>
              simp only [List.set, List.getD_cons_succ]
              exact ih i' j' fun hc => hij (by rw [hc])

theorem getD_append_left {α : Type} (l t : List α) (r : ℕ) (d : α)
    (hr : r < l.length) : (l ++ t).getD r d = l.getD r d := by
  induction l generalizing r with
  | nil => exact absurd hr (by simp)
  | cons x xs ih =>
      cases r with
      | zero => rfl
      | succ r' =>
          simp only [List.cons_append, List.getD_cons_succ]
          exact ih r' (Nat.lt_of_succ_lt_succ hr)

theorem heapGet_updateRef_ne (h : List AgentRecord) (i j : ℕ)
    (f : AgentRecord → AgentRecord) (hij : i ≠ j) :
    heapGet (updateRef h i f) j = heapGet h j :=
  getD_set_ne h i j _ default hij

/-! ### C10 -/

/-- C10: mutating and re-solving the first deep-copied type leaves
every original type untouched: for every reference in the original
MyTypes list the record it denotes — its DiscFac, solved policy, and
simulated asset and MPC panels — is unchanged by the whole experiment. -/
theorem veryImpatientExperiment_frame (h : List AgentRecord)
    (refs : List ℕ) (solveFn initFn simFn : AgentRecord → AgentRecord)
    (hne : refs ≠ []) (hvalid : ∀ r ∈ refs, r < h.length) :
    ∀ r ∈ refs,
      heapGet (veryImpatientExperiment h refs solveFn initFn simFn).1 r =
        heapGet h r := by
  intro r hr
  have hrn : r < h.length := hvalid r hr
  have hr0 : (deepcopyRefs h refs).2.getD 0 0 = h.length := by
    cases refs with
    | nil => exact absurd rfl hne
    | cons x xs => rfl
  simp only [veryImpatientExperiment, hr0]
  rw [heapGet_updateRef_ne _ _ _ _ (ne_of_gt hrn),
    heapGet_updateRef_ne _ _ _ _ (ne_of_gt hrn),
    heapGet_updateRef_ne _ _ _ _ (ne_of_gt hrn),
    heapGet_updateRef_ne _ _ _ _ (ne_of_gt hrn)]
  simp only [deepcopyRefs]
  exact getD_append_left h _ r default hrn

def demoRecord (d : ℚ) : AgentRecord :=
  { DiscFac := d, solvedPolicy := some [1, 2], aLvlNow := [3],
    MPCnow := [1 / 10] }

theorem veryImpatientExperiment_frame_witness :
    heapGet (veryImpatientExperiment [demoRecord (978 / 1000),
        demoRecord (985 / 1000)] [0, 1] id id id).1 0 =
      heapGet [demoRecord (978 / 1000), demoRecord (985 / 1000)] 0 :=
  veryImpatientExperiment_frame
    [demoRecord (978 / 1000), demoRecord (985 / 1000)] [0, 1] id id id
    (by simp) (by simp) 0 (by simp)

end DemARK
